import Mathlib

/-!
Verification of the `obiDictyMutants` module (Dictybase mutant collections).

The module parses tab-delimited mutant files, merges five category files
onto the master "all mutants" record list by setting boolean flags, and
exposes query accessors over the resulting keyed collection.

Strings are modelled as `List Char`; Python's `str.split(sep)` (for a
non-empty separator) is modelled by `pySplit`, and `" | ".join` by
`joinSep`.  Failure (Python `IndexError` on a short line, `KeyError` on a
missing key) is modelled with `Option`.
-/

abbrev Str := List Char

/-- Test whether `l` starts with `sep` (Python `startswith`). -/
def leadsWith : Str → Str → Bool
  | [], _ => true
  | _ :: _, [] => false
  | a :: as, b :: bs => a == b && leadsWith as bs

/-- Test whether `sep` occurs as a contiguous substring of `l`. -/
def hasSub (sep : Str) : Str → Bool
  | [] => leadsWith sep []
  | a :: l => leadsWith sep (a :: l) || hasSub sep l

/-- Fuelled worker for `pySplit`: splits on the non-empty separator
`c :: cs`, scanning left to right, cutting at each leftmost occurrence
(Python `str.split` semantics for a non-empty separator). -/
def splitGo (c : Char) (cs : Str) : Nat → Str → List Str
  | _, [] => [[]]
  | 0, l => [l]
  | fuel + 1, a :: l =>
    if leadsWith (c :: cs) (a :: l) then
      [] :: splitGo c cs fuel (l.drop cs.length)
    else
      match splitGo c cs fuel l with
      | [] => [[a]]
      | h :: t => (a :: h) :: t

/-- Python `l.split(sep)` for a non-empty separator `sep`.
(`pySplit sep [] = [[]]`, matching Python `"".split(sep) == [""]`.) -/
def pySplit (sep : Str) (l : Str) : List Str :=
  match sep with
  | [] => [l]
  | c :: cs => splitGo c cs l.length l

/-- Python `sep.join(xs)`. -/
def joinSep (sep : Str) : List Str → Str
  | [] => []
  | [x] => x
  | x :: y :: t => x ++ sep ++ joinSep sep (y :: t)

/-- The field separator of the source files: a single tab. -/
def fieldSep : Str := ['\t']

/-- The separator of the gene / phenotype fields: `" | "`. -/
def pipeSep : Str := [' ', '|', ' ']

/-- A single mutant record, as built by `DictyMutant.__init__`. -/
structure DictyMutant where
  name : Str
  descriptor : Str
  genes : List Str
  phenotypes : List Str
  null : Bool
  overexp : Bool
  multiple : Bool
  develop : Bool
  other : Bool
deriving DecidableEq, Repr

/-- Model of `DictyMutant.__init__`: split the entry on tabs and read fields
0–3; accessing a missing field raises `IndexError`, modelled as `none`.
Extra fields are ignored; all five category flags start out `false`. -/
def DictyMutant.mk? (entry : Str) : Option DictyMutant :=
  match pySplit fieldSep entry with
  | f0 :: f1 :: f2 :: f3 :: _ =>
    some { name := f0, descriptor := f1,
           genes := pySplit pipeSep f2,
           phenotypes := pySplit pipeSep f3,
           null := false, overexp := false, multiple := false,
           develop := false, other := false }
  | _ => none

/-- The six downloaded sources, each a list of lines (header removed,
as `load_mutants` drops the first line). -/
structure Sources where
  allMutants : List Str
  nullMutants : List Str
  overexpMutants : List Str
  multipleMutants : List Str
  developMutants : List Str
  otherMutants : List Str

/-- Model of `[DictyMutant(m) for m in lines]`: parse every line; the first
malformed line aborts the whole comprehension. -/
def parseAll : List Str → Option (List DictyMutant)
  | [] => some []
  | l :: ls =>
    match DictyMutant.mk? l, parseAll ls with
    | some m, some ms => some (m :: ms)
    | _, _ => none

/-- The flag-setting loop of `download_mutants`: each flag is set `true`
if the record's name is in the corresponding id set, otherwise left
unchanged. -/
def setFlags (nulls overexps multiples develops others : List Str)
    (m : DictyMutant) : DictyMutant :=
  { m with
    null := m.null || decide (m.name ∈ nulls),
    overexp := m.overexp || decide (m.name ∈ overexps),
    multiple := m.multiple || decide (m.name ∈ multiples),
    develop := m.develop || decide (m.name ∈ develops),
    other := m.other || decide (m.name ∈ others) }

/-- Model of `DictyMutants.download_mutants`: parse all six sources (any
malformed line anywhere aborts the merge), collect the category id
sets, tag the master records.  The final `{x: x for x in _mutants}`
dictionary is keyed by the record objects themselves, so the store is
in bijection with the master record list; we model it by that list. -/
def download_mutants (s : Sources) : Option (List DictyMutant) :=
  match parseAll s.allMutants, parseAll s.nullMutants,
        parseAll s.overexpMutants, parseAll s.multipleMutants,
        parseAll s.developMutants, parseAll s.otherMutants with
  | some ms, some nulls, some overexps, some multiples, some develops,
      some others =>
    some (ms.map (setFlags (nulls.map DictyMutant.name)
      (overexps.map DictyMutant.name) (multiples.map DictyMutant.name)
      (develops.map DictyMutant.name) (others.map DictyMutant.name)))
  | _, _, _, _, _, _ => none

/-- Lookup `self._mutants[mutant]` in the `{x: x}` dictionary: returns
the key itself when present, `KeyError` (`none`) otherwise. -/
def dictLookup (ms : List DictyMutant) (m : DictyMutant) :
    Option DictyMutant :=
  if m ∈ ms then some m else none

/-- Model of `DictyMutants.mutant_genes`. -/
def mutant_genes (ms : List DictyMutant) (m : DictyMutant) :
    Option (List Str) :=
  (dictLookup ms m).map DictyMutant.genes

/-- Model of `DictyMutants.mutant_phenotypes`. -/
def mutant_phenotypes (ms : List DictyMutant) (m : DictyMutant) :
    Option (List Str) :=
  (dictLookup ms m).map DictyMutant.phenotypes

/-- Model of `DictyMutants.genes`: `sorted(set(reduce(list.__add__, ...)))` —
concatenate all gene lists, deduplicate, sort lexicographically. -/
def genes_all (ms : List DictyMutant) : List Str :=
  List.insertionSort (· ≤ ·) ((ms.map DictyMutant.genes).flatten).dedup

/-- Model of `DictyMutants.phenotypes`, symmetric with `genes_all`. -/
def phenotypes_all (ms : List DictyMutant) : List Str :=
  List.insertionSort (· ≤ ·) ((ms.map DictyMutant.phenotypes).flatten).dedup

/-- Model of `DictyMutants.gene_mutants` at key `g`: the set of records whose
`genes` list contains `g` (the `defaultdict(set)` inverted index). -/
def gene_mutants (ms : List DictyMutant) (g : Str) : List DictyMutant :=
  ms.filter (fun m => decide (g ∈ m.genes))

/-- Model of `DictyMutants.phenotype_mutants` at key `p`. -/
def phenotype_mutants (ms : List DictyMutant) (p : Str) :
    List DictyMutant :=
  ms.filter (fun m => decide (p ∈ m.phenotypes))

/-- Reset the five category flags, recovering the record as parsed. -/
def eraseFlags (m : DictyMutant) : DictyMutant :=
  { m with null := false, overexp := false, multiple := false,
           develop := false, other := false }

/-- Field `i` of a line (the `i`-th tab-separated component). -/
def field (l : Str) (i : Nat) : Str :=
  (pySplit fieldSep l).getD i []

/-- A well-formed sample line in the format of the all-mutants source. -/
def lineA : Str := "DDB1\tdesc one\tcbfA | cbfB\tsmall plaques | round".toList

/-- A sample null-mutants line sharing the id of `lineA`. -/
def lineN : Str := "DDB1\tnull copy\tcbfA\tsmall plaques".toList

/-- A sample line whose id occurs in no all-mutants line below. -/
def lineX : Str := "DDX9\torphan\tgeneQ\tphenoQ".toList

/-- A malformed line: only three tab-separated fields. -/
def lineBad : Str := "DDB2\tshort\tonly three".toList

/-- A parseable line with an empty id field. -/
def lineE : Str := "\tdup\tgG\tpP".toList

/-- An all-false record used as a lookup default. -/
def defaultMutant : DictyMutant :=
  ⟨[], [], [], [], false, false, false, false, false⟩

/-- Sample sources: one all-mutants line whose id recurs in null-mutants. -/
def src1 : Sources := ⟨[lineA], [lineN], [], [], [], []⟩

/-- The store built from `src1`. -/
def store1 : List DictyMutant := (download_mutants src1).getD []

/-- The single record of `store1`. -/
def mut1 : DictyMutant := store1.getD 0 defaultMutant

/-- Sources in which the same empty-id line occurs twice in all-mutants. -/
def srcDup : Sources := ⟨[lineE, lineE], [], [], [], [], []⟩

/-- The store built from `srcDup`. -/
def storeDup : List DictyMutant := (download_mutants srcDup).getD []

/-- Sources whose other-mutants file holds an id absent from all-mutants. -/
def srcOrphan : Sources := ⟨[lineA], [], [], [], [], [lineX]⟩

/-- The record parsed from `lineX`. -/
def recX : DictyMutant := (DictyMutant.mk? lineX).getD defaultMutant

/-- The record parsed from `lineA`. -/
def recA : DictyMutant := (DictyMutant.mk? lineA).getD defaultMutant

/-- Sources whose other-mutants source contains a malformed line. -/
def srcBad : Sources := ⟨[lineA], [], [], [], [], [lineBad]⟩

/-- The store built from `srcOrphan`. -/
def storeOrphan : List DictyMutant := (download_mutants srcOrphan).getD []

/-- The single record of `storeOrphan`. -/
def mutOrphan : DictyMutant := storeOrphan.getD 0 defaultMutant

theorem leadsWith_append (s : Str) :
    ∀ l : Str, leadsWith s l = true → l = s ++ l.drop s.length := by
  induction s with
  | nil => intro l _; simp
  | cons a as ih =>
    intro l h
    cases l with
    | nil => simp [leadsWith] at h
    | cons b bs =>
      simp only [leadsWith, Bool.and_eq_true, beq_iff_eq] at h
      obtain ⟨rfl, h2⟩ := h
      have hb := ih bs h2
      simp only [List.length_cons, List.drop_succ_cons, List.cons_append]
      exact congrArg (List.cons a) hb

theorem splitGo_ne_nil (c : Char) (cs : Str) :
    ∀ (fuel : Nat) (l : Str), splitGo c cs fuel l ≠ [] := by
  intro fuel l
  match fuel, l with
  | fuel, [] => simp [splitGo]
  | 0, a :: l => simp [splitGo]
  | fuel + 1, a :: l =>
    simp only [splitGo]
    split
    · simp
    · split <;> simp

theorem joinSep_splitGo (c : Char) (cs : Str) :
    ∀ (fuel : Nat) (l : Str), joinSep (c :: cs) (splitGo c cs fuel l) = l := by
  intro fuel
  induction fuel with
  | zero =>
    intro l
    cases l <;> simp [splitGo, joinSep]
  | succ fuel ih =>
    intro l
    cases l with
    | nil => simp [splitGo, joinSep]
    | cons a l =>
      by_cases h : leadsWith (c :: cs) (a :: l) = true
      · rw [show splitGo c cs (fuel + 1) (a :: l)
              = [] :: splitGo c cs fuel (l.drop cs.length) from by
            simp [splitGo, h]]
        obtain ⟨r, rs, hr⟩ :
            ∃ r rs, splitGo c cs fuel (l.drop cs.length) = r :: rs := by
          cases hsp : splitGo c cs fuel (l.drop cs.length) with
          | nil => exact absurd hsp (splitGo_ne_nil c cs fuel _)
          | cons r rs => exact ⟨r, rs, rfl⟩
        rw [hr]
        have hjoin : joinSep (c :: cs) ([] :: r :: rs)
            = ([] : Str) ++ (c :: cs) ++ joinSep (c :: cs) (r :: rs) := rfl
        rw [hjoin]
        have hrec := ih (l.drop cs.length)
        rw [hr] at hrec
        rw [hrec]
        have h2 := leadsWith_append (c :: cs) (a :: l) h
        simp only [List.length_cons, List.drop_succ_cons] at h2
        simpa using h2.symm
      · rw [show splitGo c cs (fuel + 1) (a :: l)
              = (match splitGo c cs fuel l with
                 | [] => [[a]]
                 | h :: t => (a :: h) :: t) from by
            simp [splitGo, h]]
        obtain ⟨r, rs, hr⟩ : ∃ r rs, splitGo c cs fuel l = r :: rs := by
          cases hsp : splitGo c cs fuel l with
          | nil => exact absurd hsp (splitGo_ne_nil c cs fuel _)
          | cons r rs => exact ⟨r, rs, rfl⟩
        rw [hr]
        have hl := ih l
        rw [hr] at hl
        cases rs with
        | nil =>
          simp only [joinSep] at hl ⊢
          rw [hl]
        | cons y ys =>
          have hstep : joinSep (c :: cs) ((a :: r) :: y :: ys)
              = (a :: r) ++ (c :: cs) ++ joinSep (c :: cs) (y :: ys) := rfl
          have hstep2 : joinSep (c :: cs) (r :: y :: ys)
              = r ++ (c :: cs) ++ joinSep (c :: cs) (y :: ys) := rfl
          rw [hstep]
          rw [hstep2] at hl
          simp only [List.cons_append]
          exact congrArg (List.cons a) hl

theorem splitGo_of_no_sub (c : Char) (cs : Str) :
    ∀ (fuel : Nat) (l : Str),
      hasSub (c :: cs) l = false → splitGo c cs fuel l = [l] := by
  intro fuel
  induction fuel with
  | zero => intro l h; cases l <;> simp [splitGo]
  | succ fuel ih =>
    intro l h
    cases l with
    | nil => simp [splitGo]
    | cons a l =>
      simp only [hasSub] at h
      cases hlw : leadsWith (c :: cs) (a :: l) with
      | true => rw [hlw] at h; simp at h
      | false =>
        rw [hlw] at h
        simp only [Bool.false_or] at h
        rw [show splitGo c cs (fuel + 1) (a :: l)
              = (match splitGo c cs fuel l with
                 | [] => [[a]]
                 | h :: t => (a :: h) :: t) from by
            simp [splitGo, hlw]]
        rw [ih l h]

theorem joinSep_pySplit (c : Char) (cs : Str) (l : Str) :
    joinSep (c :: cs) (pySplit (c :: cs) l) = l :=
  joinSep_splitGo c cs l.length l

theorem pySplit_of_no_sub (c : Char) (cs : Str) (l : Str)
    (h : hasSub (c :: cs) l = false) : pySplit (c :: cs) l = [l] :=
  splitGo_of_no_sub c cs l.length l h

theorem mk?_isSome_iff (l : Str) :
    (DictyMutant.mk? l).isSome = true ↔ 4 ≤ (pySplit fieldSep l).length := by
  rcases hx : pySplit fieldSep l with _ | ⟨f0, _ | ⟨f1, _ | ⟨f2, _ | ⟨f3, rest⟩⟩⟩⟩ <;>
    (simp [DictyMutant.mk?, hx]; try omega)

theorem mk?_eq_none_iff (l : Str) :
    DictyMutant.mk? l = none ↔ (pySplit fieldSep l).length < 4 := by
  constructor
  · intro h
    by_contra hlt
    have h4 : 4 ≤ (pySplit fieldSep l).length := by omega
    have hs := (mk?_isSome_iff l).2 h4
    rw [h] at hs
    simp at hs
  · intro h
    cases hm : DictyMutant.mk? l with
    | none => rfl
    | some r =>
      have hs : (DictyMutant.mk? l).isSome = true := by rw [hm]; rfl
      have := (mk?_isSome_iff l).1 hs
      omega

theorem mk?_flags {l : Str} {r : DictyMutant} (h : DictyMutant.mk? l = some r) :
    r.null = false ∧ r.overexp = false ∧ r.multiple = false ∧
      r.develop = false ∧ r.other = false := by
  unfold DictyMutant.mk? at h
  split at h
  · cases h; exact ⟨rfl, rfl, rfl, rfl, rfl⟩
  · simp at h

theorem mk?_fields {l : Str} {r : DictyMutant} (h : DictyMutant.mk? l = some r) :
    r.name = field l 0 ∧ r.descriptor = field l 1 ∧
      r.genes = pySplit pipeSep (field l 2) ∧
      r.phenotypes = pySplit pipeSep (field l 3) := by
  unfold DictyMutant.mk? at h
  split at h
  · next f0 f1 f2 f3 rest heq =>
    cases h
    simp [field, heq]
  · simp at h

theorem parseAll_mem {ls : List Str} :
    ∀ {rs : List DictyMutant}, parseAll ls = some rs →
      ∀ r : DictyMutant, (r ∈ rs ↔ ∃ l ∈ ls, DictyMutant.mk? l = some r) := by
  induction ls with
  | nil =>
    intro rs h r
    simp only [parseAll, Option.some.injEq] at h
    subst h
    simp
  | cons l0 ls ih =>
    intro rs h r
    simp only [parseAll] at h
    cases hm : DictyMutant.mk? l0 <;> rw [hm] at h
    · simp at h
    · cases hp : parseAll ls <;> rw [hp] at h
      · simp at h
      · simp only [Option.some.injEq] at h
        subst h
        constructor
        · intro hr
          rcases List.mem_cons.mp hr with rfl | hr'
          · exact ⟨l0, by simp, hm⟩
          · obtain ⟨l, hl, hmk⟩ := (ih hp r).1 hr'
            exact ⟨l, by simp [hl], hmk⟩
        · rintro ⟨l, hl, hmk⟩
          rcases List.mem_cons.mp hl with rfl | hl'
          · rw [hm] at hmk
            cases hmk
            simp
          · exact List.mem_cons.mpr (Or.inr ((ih hp r).2 ⟨l, hl', hmk⟩))

theorem parseAll_length {ls : List Str} :
    ∀ {rs : List DictyMutant}, parseAll ls = some rs → rs.length = ls.length := by
  induction ls with
  | nil =>
    intro rs h
    simp only [parseAll, Option.some.injEq] at h
    subst h
    rfl
  | cons l0 ls ih =>
    intro rs h
    simp only [parseAll] at h
    cases hm : DictyMutant.mk? l0 <;> rw [hm] at h
    · simp at h
    · cases hp : parseAll ls <;> rw [hp] at h
      · simp at h
      · simp only [Option.some.injEq] at h
        subst h
        simp [ih hp]

theorem parseAll_getD {ls : List Str} :
    ∀ {rs : List DictyMutant}, parseAll ls = some rs →
      ∀ i, i < ls.length →
        DictyMutant.mk? (ls.getD i []) = some (rs.getD i defaultMutant) := by
  induction ls with
  | nil => intro rs _ i hi; simp at hi
  | cons l0 ls ih =>
    intro rs h i hi
    simp only [parseAll] at h
    cases hm : DictyMutant.mk? l0 <;> rw [hm] at h
    · simp at h
    · cases hp : parseAll ls <;> rw [hp] at h
      · simp at h
      · simp only [Option.some.injEq] at h
        subst h
        cases i with
        | zero => simpa using hm
        | succ j =>
          have hj : j < ls.length := by simpa using hi
          simpa using ih hp j hj

theorem parseAll_none_of_mem {ls : List Str} {l : Str}
    (hmem : l ∈ ls) (hbad : DictyMutant.mk? l = none) :
    parseAll ls = none := by
  induction ls with
  | nil => simp at hmem
  | cons l0 ls ih =>
    rcases List.mem_cons.mp hmem with rfl | hmem'
    · simp [parseAll, hbad]
    · cases h0 : DictyMutant.mk? l0 <;> simp [parseAll, ih hmem', h0]

theorem download_eq_some {s : Sources} {ms : List DictyMutant}
    (h : download_mutants s = some ms) :
    ∃ rs nulls overexps multiples develops others,
      parseAll s.allMutants = some rs ∧
      parseAll s.nullMutants = some nulls ∧
      parseAll s.overexpMutants = some overexps ∧
      parseAll s.multipleMutants = some multiples ∧
      parseAll s.developMutants = some develops ∧
      parseAll s.otherMutants = some others ∧
      ms = rs.map (setFlags (nulls.map DictyMutant.name)
        (overexps.map DictyMutant.name) (multiples.map DictyMutant.name)
        (develops.map DictyMutant.name) (others.map DictyMutant.name)) := by
  unfold download_mutants at h
  split at h
  · next rs nulls overexps multiples develops others h1 h2 h3 h4 h5 h6 =>
    exact ⟨rs, nulls, overexps, multiples, develops, others,
      h1, h2, h3, h4, h5, h6, (Option.some.inj h).symm⟩
  · simp at h

theorem setFlags_name (a b c d e : List Str) (m : DictyMutant) :
    (setFlags a b c d e m).name = m.name := rfl

theorem setFlags_genes (a b c d e : List Str) (m : DictyMutant) :
    (setFlags a b c d e m).genes = m.genes := rfl

theorem setFlags_phenotypes (a b c d e : List Str) (m : DictyMutant) :
    (setFlags a b c d e m).phenotypes = m.phenotypes := rfl

theorem eraseFlags_setFlags (a b c d e : List Str) (m : DictyMutant) :
    eraseFlags (setFlags a b c d e m) = eraseFlags m := rfl

theorem eraseFlags_parsed {l : Str} {r : DictyMutant}
    (h : DictyMutant.mk? l = some r) : eraseFlags r = r := by
  obtain ⟨h1, h2, h3, h4, h5⟩ := mk?_flags h
  cases r
  simp_all [eraseFlags]

theorem name_mem_parsed {ls : List Str} {rs : List DictyMutant}
    (h : parseAll ls = some rs) (x : Str) :
    x ∈ rs.map DictyMutant.name ↔
      ∃ l ∈ ls, ∃ r, DictyMutant.mk? l = some r ∧ r.name = x := by
  simp only [List.mem_map]
  constructor
  · rintro ⟨r, hr, rfl⟩
    obtain ⟨l, hl, hmk⟩ := (parseAll_mem h r).1 hr
    exact ⟨l, hl, r, hmk, rfl⟩
  · rintro ⟨l, hl, r, hmk, rfl⟩
    exact ⟨r, (parseAll_mem h r).2 ⟨l, hl, hmk⟩, rfl⟩

theorem getD_map_of_lt (f : DictyMutant → DictyMutant) (d d' : DictyMutant) :
    ∀ (l : List DictyMutant) (i : Nat), i < l.length →
      (l.map f).getD i d' = f (l.getD i d) := by
  intro l
  induction l with
  | nil => intro i hi; simp at hi
  | cons a l ih =>
    intro i hi
    cases i with
    | zero => simp
    | succ j => simpa using ih j (by simpa using hi)

/-- C1: for every store built by the merge and every record in it, each of
the five category flags (null, overexpression, multiple, developmental,
other) is true iff the record's id occurs as the id of some line of that
category's source; flags are never true otherwise. -/
theorem C1_category_flags (s : Sources) (ms : List DictyMutant)
    (h : download_mutants s = some ms) (m : DictyMutant) (hm : m ∈ ms) :
    (m.null = true ↔
      ∃ l ∈ s.nullMutants, ∃ r, DictyMutant.mk? l = some r ∧ r.name = m.name) ∧
    (m.overexp = true ↔
      ∃ l ∈ s.overexpMutants, ∃ r, DictyMutant.mk? l = some r ∧ r.name = m.name) ∧
    (m.multiple = true ↔
      ∃ l ∈ s.multipleMutants, ∃ r, DictyMutant.mk? l = some r ∧ r.name = m.name) ∧
    (m.develop = true ↔
      ∃ l ∈ s.developMutants, ∃ r, DictyMutant.mk? l = some r ∧ r.name = m.name) ∧
    (m.other = true ↔
      ∃ l ∈ s.otherMutants, ∃ r, DictyMutant.mk? l = some r ∧ r.name = m.name) := by
  obtain ⟨rs, nulls, overexps, multiples, develops, others,
    h1, h2, h3, h4, h5, h6, hms⟩ := download_eq_some h
  subst hms
  obtain ⟨m0, hm0, rfl⟩ := List.mem_map.mp hm
  obtain ⟨l0, hl0, hmk0⟩ := (parseAll_mem h1 m0).1 hm0
  obtain ⟨f1, f2, f3, f4, f5⟩ := mk?_flags hmk0
  simp only [setFlags, f1, f2, f3, f4, f5, Bool.false_or, decide_eq_true_eq]
  exact ⟨name_mem_parsed h2 m0.name, name_mem_parsed h3 m0.name,
    name_mem_parsed h4 m0.name, name_mem_parsed h5 m0.name,
    name_mem_parsed h6 m0.name⟩

/-- Witness for C1 at the concrete sources `src1`. -/
theorem C1_category_flags_witness :
    mut1 ∈ store1 ∧
    ((mut1.null = true ↔
      ∃ l ∈ src1.nullMutants, ∃ r, DictyMutant.mk? l = some r ∧ r.name = mut1.name) ∧
     (mut1.overexp = true ↔
      ∃ l ∈ src1.overexpMutants, ∃ r, DictyMutant.mk? l = some r ∧ r.name = mut1.name) ∧
     (mut1.multiple = true ↔
      ∃ l ∈ src1.multipleMutants, ∃ r, DictyMutant.mk? l = some r ∧ r.name = mut1.name) ∧
     (mut1.develop = true ↔
      ∃ l ∈ src1.developMutants, ∃ r, DictyMutant.mk? l = some r ∧ r.name = mut1.name) ∧
     (mut1.other = true ↔
      ∃ l ∈ src1.otherMutants, ∃ r, DictyMutant.mk? l = some r ∧ r.name = mut1.name)) :=
  ⟨by decide, C1_category_flags src1 store1 rfl mut1 (by decide)⟩

/-- C2: an id that occurs in a category source (here other-mutants) but as
the id of no all-mutants line is absent from the store and from every
entry of the gene and phenotype indices; the store's records are exactly
the records parsed from the all-mutants lines (up to their flags). -/
theorem C2_orphan_ids (s : Sources) (ms : List DictyMutant) (i : Str)
    (h : download_mutants s = some ms)
    (hocc : ∃ l ∈ s.otherMutants, ∃ r, DictyMutant.mk? l = some r ∧ r.name = i)
    (habs : ∀ l ∈ s.allMutants, ∀ r, DictyMutant.mk? l = some r → r.name ≠ i) :
    (∀ m ∈ ms, m.name ≠ i) ∧
    (∀ g m, m ∈ gene_mutants ms g → m.name ≠ i) ∧
    (∀ p m, m ∈ phenotype_mutants ms p → m.name ≠ i) ∧
    (∃ rs, parseAll s.allMutants = some rs ∧ ms.map eraseFlags = rs) := by
  obtain ⟨rs, nulls, overexps, multiples, develops, others,
    h1, h2, h3, h4, h5, h6, hms⟩ := download_eq_some h
  subst hms
  have hname : ∀ m ∈ rs.map (setFlags (nulls.map DictyMutant.name)
      (overexps.map DictyMutant.name) (multiples.map DictyMutant.name)
      (develops.map DictyMutant.name) (others.map DictyMutant.name)),
      m.name ≠ i := by
    intro m hm
    obtain ⟨m0, hm0, rfl⟩ := List.mem_map.mp hm
    obtain ⟨l0, hl0, hmk0⟩ := (parseAll_mem h1 m0).1 hm0
    rw [setFlags_name]
    exact habs l0 hl0 m0 hmk0
  refine ⟨hname, ?_, ?_, rs, h1, ?_⟩
  · intro g m hm
    exact hname m (List.mem_of_mem_filter hm)
  · intro p m hm
    exact hname m (List.mem_of_mem_filter hm)
  · rw [List.map_map]
    have hid : ∀ m0 ∈ rs,
        (eraseFlags ∘ setFlags (nulls.map DictyMutant.name)
          (overexps.map DictyMutant.name) (multiples.map DictyMutant.name)
          (develops.map DictyMutant.name) (others.map DictyMutant.name)) m0
          = m0 := by
      intro m0 hm0
      obtain ⟨l0, hl0, hmk0⟩ := (parseAll_mem h1 m0).1 hm0
      show eraseFlags (setFlags _ _ _ _ _ m0) = m0
      rw [eraseFlags_setFlags]
      exact eraseFlags_parsed hmk0
    calc rs.map _ = rs.map id := List.map_congr_left hid
      _ = rs := List.map_id rs

/-- Witness for C2 at the concrete sources `srcOrphan`. -/
theorem C2_orphan_ids_witness : mutOrphan.name ≠ "DDX9".toList :=
  (C2_orphan_ids srcOrphan storeOrphan ("DDX9".toList) rfl
    ⟨lineX, by decide, recX, rfl, rfl⟩
    (by
      intro l hl r hmk
      have hlA : l = lineA := by
        have hmem : l ∈ [lineA] := hl
        simpa using hmem
      subst hlA
      have hr : r = recA := by
        have : DictyMutant.mk? lineA = some recA := rfl
        rw [this] at hmk
        exact (Option.some.inj hmk).symm
      subst hr
      decide)).1 mutOrphan (by decide)

/-- C4 as stated is false on the code: the final store is keyed by the
record objects, not by id, so the sources `srcDup` (the same empty-id
line twice in all-mutants) build a store in which the empty id occurs
for two records — the id is neither non-empty nor unique. -/
theorem C4_counterexample :
    download_mutants srcDup = some storeDup ∧
    storeDup.countP (fun m => decide (m.name = ([] : Str))) = 2 := by
  decide

/-- C4 amended: every loaded snapshot contains exactly one record per
all-mutants line, in order (the record parsed from that line, up to its
category flags); an id may be empty and may occur for several records
when several lines share the same first field. -/
theorem C4_amended_one_record_per_line (s : Sources) (ms : List DictyMutant)
    (h : download_mutants s = some ms) :
    ms.length = s.allMutants.length ∧
    ∀ i, i < ms.length →
      DictyMutant.mk? (s.allMutants.getD i []) =
        some (eraseFlags (ms.getD i defaultMutant)) := by
  obtain ⟨rs, nulls, overexps, multiples, develops, others,
    h1, h2, h3, h4, h5, h6, hms⟩ := download_eq_some h
  subst hms
  have hlen := parseAll_length h1
  refine ⟨by simpa using hlen, ?_⟩
  intro i hi
  have hi2 : i < rs.length := by simpa using hi
  have hi' : i < s.allMutants.length := by omega
  have hg := parseAll_getD h1 i hi'
  rw [getD_map_of_lt _ defaultMutant defaultMutant rs i hi2,
    eraseFlags_setFlags, eraseFlags_parsed hg]
  exact hg

/-- Witness for the amended C4 at the concrete sources `srcDup`. -/
theorem C4_amended_one_record_per_line_witness :
    storeDup.length = srcDup.allMutants.length ∧
    DictyMutant.mk? (srcDup.allMutants.getD 0 []) =
      some (eraseFlags (storeDup.getD 0 defaultMutant)) :=
  ⟨(C4_amended_one_record_per_line srcDup storeDup rfl).1,
   (C4_amended_one_record_per_line srcDup storeDup rfl).2 0 (by decide)⟩

/-- Helper specializing the split/join round trip to the pipe separator. -/
theorem joinSep_pySplit_pipe (l : Str) :
    joinSep pipeSep (pySplit pipeSep l) = l :=
  joinSep_splitGo ' ' ['|', ' '] l.length l

/-- C5: on any line with at least 4 tab-separated fields the parse
succeeds, joining the genes back with the pipe separator returns exactly
the third field and joining the phenotypes returns the fourth; a field
not containing the separator splits into the one-element sequence
holding that field (the empty string when the field is empty). -/
theorem C5_split_join_roundtrip (line f : Str)
    (h4 : 4 ≤ (pySplit fieldSep line).length)
    (hf : hasSub pipeSep f = false) :
    (∃ r, DictyMutant.mk? line = some r ∧
      joinSep pipeSep r.genes = field line 2 ∧
      joinSep pipeSep r.phenotypes = field line 3) ∧
    pySplit pipeSep f = [f] := by
  constructor
  · have hs : (DictyMutant.mk? line).isSome = true := (mk?_isSome_iff line).2 h4
    obtain ⟨r, hr⟩ := Option.isSome_iff_exists.mp hs
    obtain ⟨_, _, hg, hp⟩ := mk?_fields hr
    exact ⟨r, hr, by rw [hg]; exact joinSep_pySplit_pipe (field line 2),
      by rw [hp]; exact joinSep_pySplit_pipe (field line 3)⟩
  · exact pySplit_of_no_sub ' ' ['|', ' '] f hf

/-- Witness for C5 at a concrete line and a concrete separator-free field. -/
theorem C5_split_join_roundtrip_witness :
    (∃ r, DictyMutant.mk? lineA = some r ∧
      joinSep pipeSep r.genes = field lineA 2 ∧
      joinSep pipeSep r.phenotypes = field lineA 3) ∧
    pySplit pipeSep ("cbfA".toList) = ["cbfA".toList] :=
  C5_split_join_roundtrip lineA ("cbfA".toList) (by decide) (by decide)

/-- C6: parsing a line fails iff it has fewer than 4 tab-separated
fields, and succeeds on every line with 4 or more fields (extra fields
cause no failure and no other validation is applied). -/
theorem C6_parse_fails_iff_short (l : Str) :
    (DictyMutant.mk? l = none ↔ (pySplit fieldSep l).length < 4) ∧
    ((DictyMutant.mk? l).isSome = true ↔ 4 ≤ (pySplit fieldSep l).length) :=
  ⟨mk?_eq_none_iff l, mk?_isSome_iff l⟩

/-- C7: for a record whose id names no record of the store, the
dictionary lookup and the genes and phenotypes queries all fail
(`KeyError`), never returning a default or empty value. -/
theorem C7_unknown_id_fails (ms : List DictyMutant) (m : DictyMutant)
    (h : ∀ m' ∈ ms, m'.name ≠ m.name) :
    dictLookup ms m = none ∧ mutant_genes ms m = none ∧
      mutant_phenotypes ms m = none := by
  have hnm : m ∉ ms := fun hm => h m hm rfl
  simp [dictLookup, mutant_genes, mutant_phenotypes, hnm]

/-- Witness for C7: the record of `lineX` is queried against `store1`,
which holds no record with its id. -/
theorem C7_unknown_id_fails_witness :
    dictLookup store1 recX = none ∧ mutant_genes store1 recX = none ∧
      mutant_phenotypes store1 recX = none :=
  C7_unknown_id_fails store1 recX (by decide)

/-- C8: allGenes is exactly the union of every record's genes,
lexicographically sorted with no duplicates; allPhenotypes is the
symmetric property over phenotypes. -/
theorem C8_sorted_unions (ms : List DictyMutant) :
    (genes_all ms).Sorted (· ≤ ·) ∧ (genes_all ms).Nodup ∧
    (∀ g, g ∈ genes_all ms ↔ ∃ m ∈ ms, g ∈ m.genes) ∧
    (phenotypes_all ms).Sorted (· ≤ ·) ∧ (phenotypes_all ms).Nodup ∧
    (∀ p, p ∈ phenotypes_all ms ↔ ∃ m ∈ ms, p ∈ m.phenotypes) := by
  refine ⟨List.sorted_insertionSort _ _, ?_, ?_,
    List.sorted_insertionSort _ _, ?_, ?_⟩
  · exact ((List.perm_insertionSort _ _).nodup_iff).2 (List.nodup_dedup _)
  · intro g
    show g ∈ List.insertionSort _ _ ↔ _
    rw [(List.perm_insertionSort _ _).mem_iff, List.mem_dedup,
      List.mem_flatten]
    constructor
    · rintro ⟨gl, hgl, hg⟩
      obtain ⟨m, hm, rfl⟩ := List.mem_map.mp hgl
      exact ⟨m, hm, hg⟩
    · rintro ⟨m, hm, hg⟩
      exact ⟨m.genes, List.mem_map.mpr ⟨m, hm, rfl⟩, hg⟩
  · exact ((List.perm_insertionSort _ _).nodup_iff).2 (List.nodup_dedup _)
  · intro p
    show p ∈ List.insertionSort _ _ ↔ _
    rw [(List.perm_insertionSort _ _).mem_iff, List.mem_dedup,
      List.mem_flatten]
    constructor
    · rintro ⟨pl, hpl, hp⟩
      obtain ⟨m, hm, rfl⟩ := List.mem_map.mp hpl
      exact ⟨m, hm, hp⟩
    · rintro ⟨m, hm, hp⟩
      exact ⟨m.phenotypes, List.mem_map.mpr ⟨m, hm, rfl⟩, hp⟩

/-- C9: a record of the store is a member of the gene index entry of `g`
iff `g` is an element of that record's genes; symmetric for the
phenotype index. -/
theorem C9_index_membership (ms : List DictyMutant) (g p : Str)
    (m : DictyMutant) (hm : m ∈ ms) :
    (m ∈ gene_mutants ms g ↔ g ∈ m.genes) ∧
    (m ∈ phenotype_mutants ms p ↔ p ∈ m.phenotypes) := by
  constructor <;> simp [gene_mutants, phenotype_mutants, List.mem_filter, hm]

/-- Witness for C9 at the concrete store `store1`. -/
theorem C9_index_membership_witness :
    (mut1 ∈ gene_mutants store1 ("cbfA".toList) ↔
      "cbfA".toList ∈ mut1.genes) ∧
    (mut1 ∈ phenotype_mutants store1 ("round".toList) ↔
      "round".toList ∈ mut1.phenotypes) :=
  C9_index_membership store1 ("cbfA".toList) ("round".toList) mut1 (by decide)

/-- C10: a line with fewer than 4 tab-separated fields in any of the
five category sources makes the whole merge fail with no store, because
category lines are parsed as full records rather than bare ids. -/
theorem C10_malformed_category_aborts (s : Sources) (l : Str)
    (hl : l ∈ s.nullMutants ∨ l ∈ s.overexpMutants ∨
      l ∈ s.multipleMutants ∨ l ∈ s.developMutants ∨ l ∈ s.otherMutants)
    (hbad : (pySplit fieldSep l).length < 4) :
    download_mutants s = none := by
  have hnone : DictyMutant.mk? l = none := (mk?_eq_none_iff l).2 hbad
  unfold download_mutants
  rcases hl with h | h | h | h | h <;>
    (have hp := parseAll_none_of_mem h hnone
     cases e1 : parseAll s.allMutants <;>
       cases e2 : parseAll s.nullMutants <;>
       cases e3 : parseAll s.overexpMutants <;>
       cases e4 : parseAll s.multipleMutants <;>
       cases e5 : parseAll s.developMutants <;>
       cases e6 : parseAll s.otherMutants <;>
       simp_all)

/-- Witness for C10: a malformed other-mutants line aborts the merge. -/
theorem C10_malformed_category_aborts_witness :
    download_mutants srcBad = none :=
  C10_malformed_category_aborts srcBad lineBad (by decide) (by decide)
